import Mathlib

/-!
Verification of the Plinko engine core against its specification.

The development shallowly embeds the claim-relevant parts of the sources:

* payout utilities: `src/plinko/src/utils/payouts.ts` (namespace `Payouts`)
  and the variant `src/unnamed/part_003` (namespace `PayoutsV1`);
* the physics engine facade: `src/unnamed/part_006` (namespace `PlinkoEngine`)
  and the dimension computation of the variant
  `src/plinko/src/lib/plinkoEngine.ts` (namespace `PlinkoEngineV0`).

JS numbers are modelled by exact rationals; `Math.random()` draws appear as
explicit rational parameters constrained to `[0, 1)` where a claim needs the
bound.  Body labels, which the source stores as strings (`"peg"`, `"slot-<i>"`,
`"chip-<id>"`) and dispatches on with `startsWith`, are modelled by the
inductive `BodyLabel`; chip id strings become natural numbers, fresh ids being
issued from a counter (the source draws ids from time plus a random suffix and
never reuses one).  The event-driven part of the engine (collision handler,
the 100 ms settle `setTimeout`, `dropChip`, `buildWorld` on resize/setRows,
`destroy`) is embedded as a step function on an explicit engine state, and a
run is a fold of the step function over a list of events.  Collision events
can only be produced by the physics while the runner is live and only between
bodies present in the world; that is captured by the decidable trace
well-formedness predicate `wfB` and is assumed exactly where a claim needs it.
-/

namespace Plinko

/-- The RowCount union type of the sources: 8 | 10 | 12 | 14 | 16. -/
def validRowCounts : List ℕ := [8, 10, 12, 14, 16]

/-- `binomialCoefficient` as written (identically) in
`src/plinko/src/utils/payouts.ts` and `src/unnamed/part_003`: guard `k > n`
(the `k < 0` guard is vacuous for natural `k`), guard `k = 0 || k = n`, then
the loop `result = result * (n - i) / (i + 1)` for `i = 0 .. k-1`.  Rational
arithmetic is exact here; the JS doubles are also exact for `n ≤ 16` since
every intermediate quotient is an integer binomial coefficient. -/
def binomialCoefficient (n k : ℕ) : ℚ :=
  if n < k then 0
  else if k = 0 ∨ k = n then 1
  else (List.range k).foldl (fun result i => result * ((n : ℚ) - i) / (i + 1)) 1

/-- `getSlotCount` from the payout utilities: number of slots = rowCount + 1. -/
def getSlotCount (rowCount : ℕ) : ℕ := rowCount + 1

namespace Payouts

/-- `getSlotProbabilities` from `src/plinko/src/utils/payouts.ts`
(lines 119-146): binomial coefficients, normalized; a uniform distribution
`1 / slotCount` (the source fills an array with this one constant, so the
index-wise read is the constant itself); the 30/70 mix with
`mixRatio = 0.3`; and a final re-normalization by the total. -/
def getSlotProbabilities (rowCount : ℕ) : List ℚ :=
  let slotCount := getSlotCount rowCount
  let binomialProbs := (List.range slotCount).map (fun i => binomialCoefficient rowCount i)
  let binomialTotal := binomialProbs.foldl (fun a b => a + b) 0
  let normalizedBinomial := binomialProbs.map (fun p => p / binomialTotal)
  let uniformProb : ℚ := 1 / slotCount
  let mixRatio : ℚ := 3 / 10
  let probabilities := normalizedBinomial.map (fun binProb => binProb * mixRatio + uniformProb * (1 - mixRatio))
  let total := probabilities.foldl (fun a b => a + b) 0
  probabilities.map (fun p => p / total)

end Payouts

namespace PayoutsV1

/-- `getSlotProbabilities` from `src/unnamed/part_003` (lines 109-120):
pure binomial distribution, each entry `binomialCoefficient rowCount i`
divided by `total = 2 ^ rowCount`. -/
def getSlotProbabilities (rowCount : ℕ) : List ℚ :=
  let slotCount := getSlotCount rowCount
  let total : ℚ := 2 ^ rowCount
  (List.range slotCount).map (fun i => binomialCoefficient rowCount i / total)

end PayoutsV1

/-- The size-derived board geometry computed by `calculateDimensions`. -/
structure Dimensions where
  width : ℚ
  height : ℚ
  pegRadius : ℚ
  chipRadius : ℚ
  boardPadding : ℚ
  pegSpacingX : ℚ
  pegSpacingY : ℚ
  slotHeight : ℚ
deriving DecidableEq, Repr

namespace PlinkoEngine

/-- `calculateDimensions` from `src/unnamed/part_006` (lines 149-166).
`width`/`height` come from the container bounding rect; then
`pegRadius = max(3, min(w,h) / (rows * 4))`, `chipRadius = pegRadius * 0.9`
(the source comment: chips are 90 percent of peg size, to prevent sticking),
`boardPadding = width * 0.08`, `pegSpacingX = usableWidth / (rows + 1)`,
`pegSpacingY = height * 0.75 / (rows + 1)`, `slotHeight = height * 0.12`.
For `rows = 0` the rational division by zero yields 0 and the max clamps to 3;
the RowCount type excludes that case statically. -/
def calculateDimensions (rows : ℕ) (w h : ℚ) : Dimensions :=
  let minDimension := min w h
  let pegRadius := max 3 (minDimension / ((rows : ℚ) * 4))
  let chipRadius := pegRadius * (9 / 10)
  let boardPadding := w * (8 / 100)
  let usableWidth := w - boardPadding * 2
  { width := w
    height := h
    pegRadius := pegRadius
    chipRadius := chipRadius
    boardPadding := boardPadding
    pegSpacingX := usableWidth / ((rows : ℚ) + 1)
    pegSpacingY := h * (75 / 100) / ((rows : ℚ) + 1)
    slotHeight := h * (12 / 100) }

/-- The constructor of `src/unnamed/part_006` (lines 88-147) as far as board
configuration is concerned: it stores the row count, calls
`calculateDimensions` and proceeds; no branch of the constructor raises an
error for any row count or viewport size.  The `Except` result type only
expresses the possibility of rejection that the specification asserts; every
path of the source returns normally, so the embedding always returns `ok`. -/
def constructEngine (rows : ℕ) (w h : ℚ) : Except String Dimensions :=
  Except.ok (calculateDimensions rows w h)

/-- `setRows` from `src/unnamed/part_006` (lines 767-771): assign the row
count, recompute dimensions, rebuild the world; there is no validation and no
error path, so the embedding always returns `ok`. -/
def setRows (rows : ℕ) (w h : ℚ) : Except String Dimensions :=
  Except.ok (calculateDimensions rows w h)

end PlinkoEngine

namespace PlinkoEngineV0

/-- `calculateDimensions` from `src/plinko/src/lib/plinkoEngine.ts`
(lines 140-156): identical to the `part_006` version except
`chipRadius = pegRadius * 1.5`. -/
def calculateDimensions (rows : ℕ) (w h : ℚ) : Dimensions :=
  let minDimension := min w h
  let pegRadius := max 3 (minDimension / ((rows : ℚ) * 4))
  let chipRadius := pegRadius * (3 / 2)
  let boardPadding := w * (8 / 100)
  let usableWidth := w - boardPadding * 2
  { width := w
    height := h
    pegRadius := pegRadius
    chipRadius := chipRadius
    boardPadding := boardPadding
    pegSpacingX := usableWidth / ((rows : ℚ) + 1)
    pegSpacingY := h * (75 / 100) / ((rows : ℚ) + 1)
    slotHeight := h * (12 / 100) }

end PlinkoEngineV0

namespace PlinkoEngine

/-- Body labels.  The source tags bodies with strings and dispatches on them:
`"peg"`, `"wall"`, `"topWall"`, `"bottom"`, `"divider"`, `"slot-<index>"`
(matched with `startsWith "slot-"`), `"chip-<id>"` (matched with
`startsWith "chip-"`). -/
inductive BodyLabel where
  | peg
  | wall
  | topWall
  | bottom
  | divider
  | slot (index : ℕ)
  | chip (id : ℕ)
deriving DecidableEq, Repr

/-- The chip id when the label starts with `"chip-"`. -/
def chipIdOf : BodyLabel → Option ℕ
  | .chip id => some id
  | _ => none

/-- The slot index when the label starts with `"slot-"`. -/
def slotIndexOf : BodyLabel → Option ℕ
  | .slot index => some index
  | _ => none

/-- Whether the label is exactly `"peg"`. -/
def isPeg : BodyLabel → Bool
  | .peg => true
  | _ => false

/-- `const chip = bodyA.label.startsWith("chip-") ? bodyA : bodyB.label.startsWith("chip-") ? bodyB : null`
of the collision handler: body A is preferred. -/
def firstChip (a b : BodyLabel) : Option ℕ :=
  match chipIdOf a with
  | some id => some id
  | none => chipIdOf b

/-- The analogous selection of the slot body from the pair. -/
def firstSlot (a b : BodyLabel) : Option ℕ :=
  match slotIndexOf a with
  | some index => some index
  | none => slotIndexOf b

/-- The `ChipData` record of `src/unnamed/part_006` (lines 24-31) restricted
to the fields the event dispatch reads; the stuck-tracking fields live in
`StuckChip` below, where the recovery pass is modelled. -/
structure ChipData where
  targetSlot : Option ℕ
  hasLanded : Bool
deriving DecidableEq, Repr

/-- A callback delivered to the host (the outputs of the engine). -/
inductive Output where
  | chipCreated (id : ℕ)
  | pegHit (id : ℕ)
  | slotLanded (id : ℕ) (slotIndex : ℕ)
deriving DecidableEq, Repr

/-- Engine state for the event-driven part: the `chips` registry (the
`Map<string, ChipData>`), the chip bodies currently present in the physics
world, the queue of landing dispatches scheduled by the 100 ms settle
`setTimeout`, the `isDestroyed` flag, the fresh-id counter, and the ordered
log of delivered callbacks. -/
structure EngineState where
  chips : List (ℕ × ChipData)
  worldChips : List ℕ
  pending : List (ℕ × ℕ)
  destroyed : Bool
  nextId : ℕ
  out : List Output
deriving DecidableEq, Repr

/-- `this.chips.get(id)` on the association list. -/
def lookupChip : List (ℕ × ChipData) → ℕ → Option ChipData
  | [], _ => none
  | p :: ps, id => if p.1 = id then some p.2 else lookupChip ps id

/-- `chipData.hasLanded = true` for the given id, other entries untouched. -/
def setLanded : List (ℕ × ChipData) → ℕ → List (ℕ × ChipData)
  | [], _ => []
  | p :: ps, id =>
    (if p.1 = id then (p.1, { p.2 with hasLanded := true }) else p) :: setLanded ps id

/-- `this.chips.delete(id)`; registry keys are distinct, so dropping every
entry with the key agrees with the map deletion. -/
def eraseChip : List (ℕ × ChipData) → ℕ → List (ℕ × ChipData)
  | [], _ => []
  | p :: ps, id => if p.1 = id then eraseChip ps id else p :: eraseChip ps id

/-- The peg branch of the collision handler (`src/unnamed/part_006`
lines 329-340): if one body of the pair is a peg and one is a chip, invoke
`onPegHit(chipId)` (and apply the chaos force, which does not touch the
state modelled here).  There is no `hasLanded` test in this branch. -/
def pegHitPart (s : EngineState) (a b : BodyLabel) : EngineState :=
  if isPeg a || isPeg b then
    match firstChip a b with
    | some id => { s with out := s.out ++ [Output.pegHit id] }
    | none => s
  else s

/-- The slot-sensor branch of the collision handler (`src/unnamed/part_006`
lines 342-363): if the pair consists of a slot sensor and a chip, look the
chip up in the registry; if present and not yet landed, set `hasLanded` and
schedule the landing dispatch (`setTimeout(..., 100)`); otherwise ignore. -/
def slotPart (s : EngineState) (a b : BodyLabel) : EngineState :=
  match firstSlot a b, firstChip a b with
  | some slotIndex, some id =>
    match lookupChip s.chips id with
    | some d =>
      if d.hasLanded then s
      else { s with chips := setLanded s.chips id
                    pending := s.pending ++ [(id, slotIndex)] }
    | none => s
  | _, _ => s

/-- One pair of a `collisionStart` event: the peg branch runs first, then the
slot branch, exactly as in the handler body.  An event with several pairs is
the sequential composition of its pairs. -/
def collisionPairStep (s : EngineState) (a b : BodyLabel) : EngineState :=
  slotPart (pegHitPart s a b) a b

/-- The body of the scheduled 100 ms settle `setTimeout`
(`src/unnamed/part_006` lines 357-360): deliver
`onSlotLanded(chipId, slotIndex)` and run `removeChip(chipId)` (remove the
body from the world and the entry from the registry).  The closure contains
no check of `isDestroyed` and no liveness check, so the step fires
regardless of the destroyed flag; dispatches fire in scheduling order. -/
def timerFireStep (s : EngineState) : EngineState :=
  match s.pending with
  | [] => s
  | (id, slotIndex) :: rest =>
    { s with out := s.out ++ [Output.slotLanded id slotIndex]
             chips := eraseChip s.chips id
             worldChips := s.worldChips.filter (fun j => j != id)
             pending := rest }

/-- `dropChip` (`src/unnamed/part_006` lines 599-704) as far as the event
dispatch is concerned: register the chip with `hasLanded = false`, add its
body to the world, deliver `onChipCreated(id)`.  The id, a fresh string in
the source, is issued from the counter; the position and physics
randomization do not touch the state modelled here, and the deterministic
steering task is modelled separately by `nudgeTick`. -/
def dropChipStep (s : EngineState) (targetSlot : Option ℕ) : EngineState :=
  let id := s.nextId
  { s with chips := s.chips ++ [(id, { targetSlot := targetSlot, hasLanded := false })]
           worldChips := s.worldChips ++ [id]
           nextId := id + 1
           out := s.out ++ [Output.chipCreated id] }

/-- `buildWorld` (`src/unnamed/part_006` lines 168-192) as invoked by
`resize()` and `setRows()`: `World.clear` removes every body, chips
included, and the static geometry is recreated; the `chips` registry and
any scheduled timers are untouched. -/
def buildWorldStep (s : EngineState) : EngineState :=
  { s with worldChips := [] }

/-- `destroy()` (`src/unnamed/part_006` lines 810-827): set `isDestroyed`,
stop the runner and render loop, clear the world and the registry.  The
scheduled settle `setTimeout`s are not cancelled, so `pending` survives. -/
def destroyStep (s : EngineState) : EngineState :=
  { s with destroyed := true
           worldChips := []
           chips := [] }

/-- An externally visible event of the engine lifecycle. -/
inductive Event where
  | drop (targetSlot : Option ℕ)
  | collision (a b : BodyLabel)
  | timerFire
  | rebuild
  | destroy
deriving DecidableEq, Repr

/-- The step function of the engine. -/
def step (s : EngineState) : Event → EngineState
  | .drop targetSlot => dropChipStep s targetSlot
  | .collision a b => collisionPairStep s a b
  | .timerFire => timerFireStep s
  | .rebuild => buildWorldStep s
  | .destroy => destroyStep s

/-- Run a list of events from a state. -/
def run (s : EngineState) : List Event → EngineState
  | [] => s
  | e :: es => run (step s e) es

/-- The state right after construction: empty registry, no chip bodies, no
scheduled dispatch, not destroyed. -/
def init : EngineState :=
  { chips := [], worldChips := [], pending := [], destroyed := false, nextId := 0, out := [] }

/-- `getActiveChipCount` (`src/unnamed/part_006` lines 806-808):
`this.chips.size`; registry keys are distinct by fresh-id issuance. -/
def getActiveChipCount (s : EngineState) : ℕ := s.chips.length

/-- Whether a label can take part in a collision: a chip body must be present
in the world; the static bodies are present whenever the engine is live. -/
def labelLive (s : EngineState) : BodyLabel → Bool
  | .chip id => decide (id ∈ s.worldChips)
  | _ => true

/-- Physical admissibility of one event: `collisionStart` is only produced by
the running physics (runner stopped after destroy) and only between bodies
present in the world.  Every other event may occur at any time - in
particular a scheduled settle timer also fires after `destroy()`. -/
def eventOk (s : EngineState) : Event → Bool
  | .collision a b => !s.destroyed && labelLive s a && labelLive s b
  | _ => true

/-- Well-formedness of a trace from a state. -/
def wfB : EngineState → List Event → Bool
  | _, [] => true
  | s, e :: es => eventOk s e && wfB (step s e) es

/-- `true` for every event except `destroy`. -/
def notDestroy : Event → Bool
  | .destroy => false
  | _ => true

/-- No `destroy` event occurs in the list. -/
def noDestroy (es : List Event) : Bool := es.all notDestroy

/-- Whether an output is a landing callback for the given chip id. -/
def slotLandedFor (id : ℕ) : Output → Bool
  | .slotLanded j _ => j == id
  | _ => false

/-- Number of landing callbacks delivered for a chip id. -/
def countSlotLanded (id : ℕ) (l : List Output) : ℕ :=
  (l.filter (slotLandedFor id)).length

/-- Number of scheduled landing dispatches for a chip id. -/
def countPending (id : ℕ) (l : List (ℕ × ℕ)) : ℕ :=
  (l.filter (fun q => q.1 == id)).length

/-- Landing callbacks delivered plus dispatches still scheduled, per chip. -/
def chipCount (s : EngineState) (id : ℕ) : ℕ :=
  countSlotLanded id s.out + countPending id s.pending

/-- The inductive invariant of the event system: per chip, at most one
landing dispatch ever exists (delivered or scheduled); none exists while the
registry holds the chip un-landed; and any chip the state knows has an id
below the freshness counter. -/
def Inv (s : EngineState) : Prop :=
  ∀ id : ℕ,
    chipCount s id ≤ 1
    ∧ (∀ d, lookupChip s.chips id = some d → d.hasLanded = false → chipCount s id = 0)
    ∧ ((chipCount s id ≠ 0 ∨ lookupChip s.chips id ≠ none) → id < s.nextId)

/-- Geometry parameters read by the deterministic steering task
(`applyDeterministicNudges`, `src/unnamed/part_006` lines 706-741). -/
structure NudgeEnv where
  rows : ℕ
  width : ℚ
  boardPadding : ℚ
  height : ℚ
  slotHeight : ℚ
  targetSlot : ℕ
deriving DecidableEq, Repr

/-- `slotWidth = (this.width - this.boardPadding * 2) / slotCount`. -/
def slotWidth (env : NudgeEnv) : ℚ :=
  (env.width - env.boardPadding * 2) / ((env.rows : ℚ) + 1)

/-- `targetX = this.boardPadding + slotWidth / 2 + targetSlot * slotWidth`. -/
def targetX (env : NudgeEnv) : ℚ :=
  env.boardPadding + slotWidth env / 2 + (env.targetSlot : ℚ) * slotWidth env

/-- `maxNudges = Math.floor(this.rows / 2)`. -/
def maxNudges (env : NudgeEnv) : ℕ := env.rows / 2

/-- What one interval tick observes: the destroyed flag, the registry entry
for the chip, the chip position, and the `Math.random()` draw of the tick. -/
structure NudgeObs where
  destroyed : Bool
  chipData : Option ChipData
  posX : ℚ
  posY : ℚ
  rand : ℚ
deriving DecidableEq, Repr

/-- One tick of the `setInterval` body of `applyDeterministicNudges`.  The
interval state is `(nudgeCount, interval still installed)`.  The tick clears
the interval when the engine is destroyed or the tick budget is exhausted,
and when the chip is gone from the registry or has landed; otherwise, when
the chip sits in the middle vertical band
(`0.3 < y / (height - slotHeight) < 0.85`) and the horizontal offset from
the target slot center exceeds `slotWidth * 0.3`, it applies the lateral
force `diff * 0.00002 * (Math.random() + 0.5)`; the tick counter always
advances when the body runs to its end. -/
def nudgeTick (env : NudgeEnv) (st : ℕ × Bool) (o : NudgeObs) : (ℕ × Bool) × Option ℚ :=
  if st.2 = false then (st, none)
  else if o.destroyed = true ∨ maxNudges env ≤ st.1 then ((st.1, false), none)
  else
    match o.chipData with
    | none => ((st.1, false), none)
    | some d =>
      if d.hasLanded = true then ((st.1, false), none)
      else
        let progress := o.posY / (env.height - env.slotHeight)
        let force :=
          if 3 / 10 < progress ∧ progress < 85 / 100 then
            if slotWidth env * (3 / 10) < |targetX env - o.posX| then
              some ((targetX env - o.posX) * (2 / 100000) * (o.rand + 1 / 2))
            else none
          else none
        ((st.1 + 1, true), force)

/-- Fold the tick over a sequence of observations, collecting the force
applied (if any) at each tick. -/
def runNudges (env : NudgeEnv) : (ℕ × Bool) → List NudgeObs → (ℕ × Bool) × List (Option ℚ)
  | st, [] => (st, [])
  | st, o :: os =>
    let r := nudgeTick env st o
    let rest := runNudges env r.1 os
    (rest.1, r.2 :: rest.2)

/-- Number of ticks that applied a force. -/
def countForces (l : List (Option ℚ)) : ℕ := (l.filter Option.isSome).length

/-- The per-chip record read and written by the stuck-recovery pass
(`checkAndUnstickBalls`, `src/unnamed/part_006` lines 409-472). -/
structure StuckChip where
  hasLanded : Bool
  lastPosition : Option (ℚ × ℚ)
  stuckCheckTime : Option ℚ
deriving DecidableEq, Repr

/-- One chip of the `checkAndUnstickBalls` pass, with the collaborating
randomness passed explicitly: `rc, rs` stand for `cos(angle), sin(angle)` of
the random escape angle, `r2, r3` for the two further `Math.random()` draws.
The source compares `Math.sqrt(distSq) < 1.5` and `Math.sqrt(speedSq) < 0.2`;
both sides being non-negative, the embedding compares the squares against
`2.25` and `0.04`.  The result carries the updated record, the force handed
to `Body.applyForce` (if any), and the velocity handed to
`Body.setVelocity` (if any); `applyForce` only accumulates force, so the
velocity read by `setVelocity` is the incoming one. -/
def checkAndUnstickChip (now : ℚ) (data : StuckChip) (posX posY vx vy rc rs r2 r3 : ℚ) :
    StuckChip × Option (ℚ × ℚ) × Option (ℚ × ℚ) :=
  if data.hasLanded then (data, none, none)
  else
    match data.lastPosition with
    | none =>
      ({ data with lastPosition := some (posX, posY), stuckCheckTime := some now }, none, none)
    | some last =>
      let distSq := (posX - last.1) ^ 2 + (posY - last.2) ^ 2
      if distSq < 9 / 4 then
        match data.stuckCheckTime with
        | none => ({ data with stuckCheckTime := some now }, none, none)
        | some t0 =>
          if 500 < now - t0 then
            let speedSq := vx ^ 2 + vy ^ 2
            if speedSq < 1 / 25 then
              let force := (rc * (1 / 1000), rs * (1 / 1000) + 8 / 10000)
              let newVel := (vx + (r2 - 1 / 2) * (3 / 10), vy + 1 / 2 + r3 * (1 / 2))
              ({ data with stuckCheckTime := some now, lastPosition := some (posX, posY) },
               some force, some newVel)
            else (data, none, none)
          else (data, none, none)
      else
        ({ data with lastPosition := some (posX, posY), stuckCheckTime := none }, none, none)

end PlinkoEngine

end Plinko

namespace Plinko

/-! ### Helper lemmas about list indexing -/

/-- Reading a mapped range at an in-bounds index. -/
theorem getD_map_range (f : ℕ → ℚ) {m i : ℕ} (hi : i < m) :
    ((List.range m).map f).getD i 0 = f i := by
  have hlen : i < ((List.range m).map f).length := by simpa using hi
  rw [List.getD_eq_getElem _ _ hlen, List.getElem_map, List.getElem_range]

/-! ### The probability model (claims C5 and C6) -/

/-- The `part_003` distribution, evaluated: it is exactly the length-(n+1)
sequence of normalized binomial coefficients, for every valid row count. -/
theorem payoutsV1_eq_map (n : ℕ) (hn : n ∈ validRowCounts) :
    PayoutsV1.getSlotProbabilities n
      = (List.range (getSlotCount n)).map (fun i => (n.choose i : ℚ) / 2 ^ n) := by
  fin_cases hn <;>
    norm_num [PayoutsV1.getSlotProbabilities, binomialCoefficient, getSlotCount,
      List.range_succ, Nat.choose]

/-- The current `payouts.ts` distribution, evaluated: it is the 30/70 mix of
the normalized binomial distribution with the uniform distribution, for every
valid row count (the final re-normalization divides by an exact total of 1). -/
theorem payoutsMixed_eq_map (n : ℕ) (hn : n ∈ validRowCounts) :
    Payouts.getSlotProbabilities n
      = (List.range (getSlotCount n)).map
          (fun i => 3 / 10 * ((n.choose i : ℚ) / 2 ^ n) + 7 / 10 * (1 / ((n : ℚ) + 1))) := by
  fin_cases hn <;>
    norm_num [Payouts.getSlotProbabilities, binomialCoefficient, getSlotCount,
      List.range_succ, Nat.choose]

/-- Claim C5, counterexample: the distribution actually used by the current
probability model (`getSlotProbabilities` of `src/plinko/src/utils/payouts.ts`)
differs from the normalized binomial coefficients already at row count 8,
slot 0: the code returns `0.3 * (1/256) + 0.7 * (1/9) = 1819/23040`, not
`C(8,0)/2^8 = 1/256`. -/
theorem mixed_distribution_not_binomial_counterexample :
    (Payouts.getSlotProbabilities 8).getD 0 0 ≠ (Nat.choose 8 0 : ℚ) / 2 ^ 8 := by
  norm_num [Payouts.getSlotProbabilities, binomialCoefficient, getSlotCount, List.range_succ]

/-- Claim C5, amended: for every valid row count and slot index, the
`part_003` variant of `getSlotProbabilities` returns exactly
`C(n, i) / 2 ^ n`, while the current `payouts.ts` variant returns the mix
`0.3 * C(n, i) / 2 ^ n + 0.7 / (n + 1)`. -/
theorem slot_probabilities_characterization (n : ℕ) (hn : n ∈ validRowCounts)
    (i : ℕ) (hi : i < n + 1) :
    (PayoutsV1.getSlotProbabilities n).getD i 0 = (n.choose i : ℚ) / 2 ^ n
    ∧ (Payouts.getSlotProbabilities n).getD i 0
        = 3 / 10 * ((n.choose i : ℚ) / 2 ^ n) + 7 / 10 * (1 / ((n : ℚ) + 1)) := by
  have hi' : i < getSlotCount n := by simpa [getSlotCount] using hi
  constructor
  · rw [payoutsV1_eq_map n hn, getD_map_range _ hi']
  · rw [payoutsMixed_eq_map n hn, getD_map_range _ hi']

/-- Witness for the amended claim C5 at row count 8, slot 4. -/
theorem slot_probabilities_characterization_witness :
    8 ∈ validRowCounts ∧ 4 < 8 + 1 ∧
    ((PayoutsV1.getSlotProbabilities 8).getD 4 0 = ((8 : ℕ).choose 4 : ℚ) / 2 ^ 8
      ∧ (Payouts.getSlotProbabilities 8).getD 4 0
          = 3 / 10 * (((8 : ℕ).choose 4 : ℚ) / 2 ^ 8) + 7 / 10 * (1 / ((8 : ℚ) + 1))) :=
  ⟨by decide, by decide, slot_probabilities_characterization 8 (by decide) 4 (by decide)⟩

/-- Claim C6: for every valid row count, the sequence returned by
`getSlotProbabilities` (current `payouts.ts`) has `rowCount + 1` entries,
sums to 1 exactly in exact arithmetic, is symmetric, and attains its maximum
at the center slot `n / 2`. -/
theorem distribution_sum_symmetry_center_max (n : ℕ) (hn : n ∈ validRowCounts) :
    (Payouts.getSlotProbabilities n).length = n + 1
    ∧ (Payouts.getSlotProbabilities n).sum = 1
    ∧ (∀ i, i < n + 1 →
        (Payouts.getSlotProbabilities n).getD i 0
          = (Payouts.getSlotProbabilities n).getD (n - i) 0)
    ∧ (∀ i, i < n + 1 →
        (Payouts.getSlotProbabilities n).getD i 0
          ≤ (Payouts.getSlotProbabilities n).getD (n / 2) 0) := by
  have hmap := payoutsMixed_eq_map n hn
  refine ⟨?_, ?_, ?_, ?_⟩
  · rw [hmap]; simp [getSlotCount]
  · fin_cases hn <;>
      norm_num [Payouts.getSlotProbabilities, binomialCoefficient, getSlotCount,
        List.range_succ, List.sum_cons, List.sum_nil]
  · intro i hi
    have hi' : i < getSlotCount n := by simpa [getSlotCount] using hi
    have hi'' : n - i < getSlotCount n := by simp [getSlotCount]; omega
    rw [hmap, getD_map_range _ hi', getD_map_range _ hi'',
      Nat.choose_symm (by omega : i ≤ n)]
  · intro i hi
    have hi' : i < getSlotCount n := by simpa [getSlotCount] using hi
    have hmid : n / 2 < getSlotCount n := by simp [getSlotCount]; omega
    rw [hmap, getD_map_range _ hi', getD_map_range _ hmid]
    have hc : ((n.choose i : ℚ)) ≤ (n.choose (n / 2) : ℚ) := by
      exact_mod_cast Nat.choose_le_middle i n
    gcongr

/-- Witness for claim C6 at row count 8. -/
theorem distribution_sum_symmetry_center_max_witness :
    8 ∈ validRowCounts ∧
    ((Payouts.getSlotProbabilities 8).length = 8 + 1
      ∧ (Payouts.getSlotProbabilities 8).sum = 1
      ∧ (∀ i, i < 8 + 1 →
          (Payouts.getSlotProbabilities 8).getD i 0
            = (Payouts.getSlotProbabilities 8).getD (8 - i) 0)
      ∧ (∀ i, i < 8 + 1 →
          (Payouts.getSlotProbabilities 8).getD i 0
            ≤ (Payouts.getSlotProbabilities 8).getD (8 / 2) 0)) :=
  ⟨by decide, distribution_sum_symmetry_center_max 8 (by decide)⟩

/-! ### Board configuration (claims C4 and C9) -/

/-- Claim C4, counterexample: constructing or reconfiguring the engine with a
zero-by-zero viewport is not rejected - there is no validation anywhere in
the constructor, `calculateDimensions` or `setRows` - and yields a degenerate
board (peg radius clamped to the minimum 3, zero padding, zero spacing). -/
theorem degenerate_config_accepted_counterexample :
    PlinkoEngine.constructEngine 8 0 0
      = Except.ok (PlinkoEngine.calculateDimensions 8 0 0)
    ∧ PlinkoEngine.setRows 8 0 0 = Except.ok (PlinkoEngine.calculateDimensions 8 0 0)
    ∧ PlinkoEngine.calculateDimensions 8 0 0
        = { width := 0, height := 0, pegRadius := 3, chipRadius := 27 / 10,
            boardPadding := 0, pegSpacingX := 0, pegSpacingY := 0, slotHeight := 0 } := by
  refine ⟨rfl, rfl, ?_⟩
  norm_num [PlinkoEngine.calculateDimensions, min_def, max_def]

/-- Claim C4, amended: construction and `setRows` never reject any row count
or viewport size; they always complete with the computed dimensions, whose
peg radius is clamped to at least 3 even for degenerate viewports.  Row
counts outside 8/10/12/14/16 are excluded only statically by the RowCount
type, not by any runtime check. -/
theorem construction_never_rejects : ∀ (rows : ℕ) (w h : ℚ),
    PlinkoEngine.constructEngine rows w h
      = Except.ok (PlinkoEngine.calculateDimensions rows w h)
    ∧ PlinkoEngine.setRows rows w h
      = Except.ok (PlinkoEngine.calculateDimensions rows w h)
    ∧ 3 ≤ (PlinkoEngine.calculateDimensions rows w h).pegRadius := by
  intro rows w h
  exact ⟨rfl, rfl, le_max_left 3 _⟩

/-- Claim C9, counterexample: in the `src/plinko/src/lib/plinkoEngine.ts`
variant the chip radius is 1.5 times the peg radius, so it is not strictly
smaller; at rows 8 on an 800 by 600 viewport the peg radius is 75/4 and the
chip radius 225/8. -/
theorem chip_radius_not_smaller_counterexample :
    ¬ (PlinkoEngineV0.calculateDimensions 8 800 600).chipRadius
        < (PlinkoEngineV0.calculateDimensions 8 800 600).pegRadius := by
  norm_num [PlinkoEngineV0.calculateDimensions, min_def, max_def]

/-- Claim C9, amended: every recomputation of dimensions goes through
`calculateDimensions`, and for every row count and viewport the `part_006`
engine derives a chip radius (0.9 times the peg radius) strictly below the
peg radius, while the `plinkoEngine.ts` variant derives one (1.5 times the
peg radius) strictly above it. -/
theorem chip_peg_radius_relation : ∀ (rows : ℕ) (w h : ℚ),
    (PlinkoEngine.calculateDimensions rows w h).chipRadius
      < (PlinkoEngine.calculateDimensions rows w h).pegRadius
    ∧ (PlinkoEngineV0.calculateDimensions rows w h).pegRadius
      < (PlinkoEngineV0.calculateDimensions rows w h).chipRadius := by
  intro rows w h
  have hp : (3 : ℚ) ≤ max 3 (min w h / ((rows : ℚ) * 4)) := le_max_left _ _
  constructor
  · simp only [PlinkoEngine.calculateDimensions]
    nlinarith
  · simp only [PlinkoEngineV0.calculateDimensions]
    nlinarith

end Plinko

namespace Plinko.PlinkoEngine

/-! ### Counting lemmas for the event model -/

theorem countSlotLanded_append (id : ℕ) (l m : List Output) :
    countSlotLanded id (l ++ m) = countSlotLanded id l + countSlotLanded id m := by
  simp [countSlotLanded, List.filter_append]

theorem countSlotLanded_pegHit (id j : ℕ) : countSlotLanded id [Output.pegHit j] = 0 := rfl

theorem countSlotLanded_chipCreated (id j : ℕ) :
    countSlotLanded id [Output.chipCreated j] = 0 := rfl

theorem countSlotLanded_single (id j sl : ℕ) :
    countSlotLanded id [Output.slotLanded j sl] = if j = id then 1 else 0 := by
  by_cases h : j = id <;> simp [countSlotLanded, slotLandedFor, h]

theorem countPending_cons (id j sl : ℕ) (rest : List (ℕ × ℕ)) :
    countPending id ((j, sl) :: rest) = (if j = id then 1 else 0) + countPending id rest := by
  by_cases h : j = id <;> simp [countPending, h] <;> omega

theorem countPending_append (id : ℕ) (l m : List (ℕ × ℕ)) :
    countPending id (l ++ m) = countPending id l + countPending id m := by
  simp [countPending, List.filter_append]

theorem countPending_single (id j sl : ℕ) :
    countPending id [(j, sl)] = if j = id then 1 else 0 := by
  by_cases h : j = id <;> simp [countPending, h]

/-! ### Registry lookup lemmas -/

theorem lookupChip_append_some {l : List (ℕ × ChipData)} {id : ℕ} {x : ChipData}
    (m : List (ℕ × ChipData)) (h : lookupChip l id = some x) :
    lookupChip (l ++ m) id = some x := by
  induction l with
  | nil => simp [lookupChip] at h
  | cons p ps ih =>
    simp only [lookupChip] at h
    simp only [List.cons_append, lookupChip]
    by_cases hp : p.1 = id
    · simpa [hp] using h
    · simp only [hp, if_false] at h ⊢
      exact ih h

theorem lookupChip_append_none {l : List (ℕ × ChipData)} {id : ℕ}
    (m : List (ℕ × ChipData)) (h : lookupChip l id = none) :
    lookupChip (l ++ m) id = lookupChip m id := by
  induction l with
  | nil => rfl
  | cons p ps ih =>
    simp only [lookupChip] at h
    simp only [List.cons_append, lookupChip]
    by_cases hp : p.1 = id
    · simp [hp] at h
    · simp only [hp, if_false] at h ⊢
      exact ih h

theorem lookupChip_setLanded_self (l : List (ℕ × ChipData)) (id : ℕ) :
    lookupChip (setLanded l id) id
      = (lookupChip l id).map (fun d => { d with hasLanded := true }) := by
  induction l with
  | nil => rfl
  | cons p ps ih =>
    by_cases hp : p.1 = id
    · simp [setLanded, lookupChip, hp]
    · simp [setLanded, lookupChip, hp, ih]

theorem lookupChip_setLanded_ne (l : List (ℕ × ChipData)) (id i : ℕ) (h : i ≠ id) :
    lookupChip (setLanded l id) i = lookupChip l i := by
  induction l with
  | nil => rfl
  | cons p ps ih =>
    by_cases hp : p.1 = id
    · have : p.1 ≠ i := by omega
      simp [setLanded, lookupChip, hp, this, Ne.symm h, ih]
    · by_cases hq : p.1 = i <;> simp [setLanded, lookupChip, hp, hq, h, Ne.symm h, ih]

theorem lookupChip_erase_self (l : List (ℕ × ChipData)) (id : ℕ) :
    lookupChip (eraseChip l id) id = none := by
  induction l with
  | nil => rfl
  | cons p ps ih =>
    by_cases hp : p.1 = id <;> simp [eraseChip, lookupChip, hp, ih]

theorem lookupChip_erase_ne (l : List (ℕ × ChipData)) (id i : ℕ) (h : i ≠ id) :
    lookupChip (eraseChip l id) i = lookupChip l i := by
  induction l with
  | nil => rfl
  | cons p ps ih =>
    by_cases hp : p.1 = id
    · have : p.1 ≠ i := by omega
      simp [eraseChip, lookupChip, hp, this, Ne.symm h, ih]
    · by_cases hq : p.1 = i <;> simp [eraseChip, lookupChip, hp, hq, h, Ne.symm h, ih]

/-! ### Shapes of the collision handler branches -/

theorem pegHitPart_shape (s : EngineState) (a b : BodyLabel) :
    pegHitPart s a b = s
    ∨ ∃ j, pegHitPart s a b = { s with out := s.out ++ [Output.pegHit j] } := by
  unfold pegHitPart
  split
  · rcases h : firstChip a b with _ | j
    · exact Or.inl (by simp [h])
    · exact Or.inr ⟨j, by simp [h]⟩
  · exact Or.inl rfl

theorem slotPart_shape (s : EngineState) (a b : BodyLabel) :
    slotPart s a b = s
    ∨ ∃ id slotIndex d, firstChip a b = some id ∧ firstSlot a b = some slotIndex
        ∧ lookupChip s.chips id = some d ∧ d.hasLanded = false
        ∧ slotPart s a b
            = { s with chips := setLanded s.chips id
                       pending := s.pending ++ [(id, slotIndex)] } := by
  unfold slotPart
  rcases hs : firstSlot a b with _ | sl
  · exact Or.inl (by simp [hs])
  · rcases hc : firstChip a b with _ | id
    · exact Or.inl (by simp [hs, hc])
    · rcases hl : lookupChip s.chips id with _ | d
      · exact Or.inl (by simp [hs, hc, hl])
      · by_cases hd : d.hasLanded
        · exact Or.inl (by simp [hs, hc, hl, hd])
        · exact Or.inr ⟨id, sl, d, rfl, rfl, hl, by simpa using hd, by simp [hl, hd]⟩

/-- If the pair selects a chip, one of the two bodies is that chip. -/
theorem firstChip_eq_some {a b : BodyLabel} {j : ℕ} (h : firstChip a b = some j) :
    a = BodyLabel.chip j ∨ b = BodyLabel.chip j := by
  unfold firstChip at h
  rcases ha : chipIdOf a with _ | k
  · rw [ha] at h
    right
    cases b <;> simp [chipIdOf] at h <;> simp [h]
  · rw [ha] at h
    left
    cases a <;> simp [chipIdOf] at ha
    simp [ha, Option.some_inj.mp h]

end Plinko.PlinkoEngine

namespace Plinko.PlinkoEngine

/-! ### Preservation of the landing-dispatch invariant -/

theorem inv_init : Inv init := by
  intro i
  refine ⟨?_, ?_, ?_⟩ <;> simp [Inv, chipCount, countSlotLanded, countPending, init, lookupChip]

theorem inv_dropChipStep {s : EngineState} (h : Inv s) (t : Option ℕ) :
    Inv (dropChipStep s t) := by
  intro i
  obtain ⟨h1, h2, h3⟩ := h i
  have hcc : chipCount (dropChipStep s t) i = chipCount s i := by
    simp [chipCount, dropChipStep, countSlotLanded_append, countSlotLanded_chipCreated]
  refine ⟨by rw [hcc]; exact h1, ?_, ?_⟩
  · intro d hd hdl
    rw [hcc]
    have hd2 : lookupChip (s.chips ++ [(s.nextId, { targetSlot := t, hasLanded := false })]) i
        = some d := hd
    rcases hl : lookupChip s.chips i with _ | x
    · rw [lookupChip_append_none _ hl] at hd2
      by_cases hni : s.nextId = i
      · by_contra hnz
        have := h3 (Or.inl hnz)
        omega
      · simp [lookupChip, hni] at hd2
    · rw [lookupChip_append_some _ hl] at hd2
      injection hd2 with hx
      subst hx
      exact h2 _ hl hdl
  · intro hor
    show i < s.nextId + 1
    rcases hor with hnz | hne
    · rw [hcc] at hnz
      have := h3 (Or.inl hnz)
      omega
    · have hne2 : lookupChip (s.chips ++ [(s.nextId, { targetSlot := t, hasLanded := false })]) i
          ≠ none := hne
      rcases hl : lookupChip s.chips i with _ | x
      · rw [lookupChip_append_none _ hl] at hne2
        by_cases hni : s.nextId = i
        · omega
        · simp [lookupChip, hni] at hne2
      · have := h3 (Or.inr (by rw [hl]; simp))
        omega

theorem inv_pegHitPart {s : EngineState} (h : Inv s) (a b : BodyLabel) :
    Inv (pegHitPart s a b) := by
  rcases pegHitPart_shape s a b with he | ⟨j, he⟩
  · rw [he]; exact h
  · rw [he]
    intro i
    obtain ⟨h1, h2, h3⟩ := h i
    have hcc : chipCount { s with out := s.out ++ [Output.pegHit j] } i = chipCount s i := by
      simp [chipCount, countSlotLanded_append, countSlotLanded_pegHit]
    refine ⟨by rw [hcc]; exact h1, fun d hd hdl => by rw [hcc]; exact h2 d hd hdl, ?_⟩
    intro hor
    apply h3
    rcases hor with hnz | hne
    · left; rwa [hcc] at hnz
    · right; exact hne

theorem inv_collisionPairStep {s : EngineState} (h : Inv s) (a b : BodyLabel) :
    Inv (collisionPairStep s a b) := by
  have hpeg := inv_pegHitPart h a b
  show Inv (slotPart (pegHitPart s a b) a b)
  set s1 := pegHitPart s a b with hs1
  rcases slotPart_shape s1 a b with he | ⟨id, sl, d, hc, hs, hl, hd, he⟩
  · rw [he]; exact hpeg
  · rw [he]
    intro i
    obtain ⟨h1, h2, h3⟩ := hpeg i
    by_cases hii : id = i
    · subst hii
      have h0 : chipCount s1 id = 0 := h2 d hl hd
      have e1 : countSlotLanded id s1.out = 0 ∧ countPending id s1.pending = 0 := by
        unfold chipCount at h0
        omega
      have hcc :
          chipCount { s1 with chips := setLanded s1.chips id, pending := s1.pending ++ [(id, sl)] } id = 1 := by
        simp [chipCount, countPending_append, countPending_single, e1.1, e1.2]
      refine ⟨by rw [hcc], ?_, ?_⟩
      · intro d' hd' hdl'
        have hd2 : lookupChip (setLanded s1.chips id) id = some d' := hd'
        rw [lookupChip_setLanded_self, hl] at hd2
        simp only [Option.map_some', Option.some.injEq] at hd2
        subst hd2
        simp at hdl'
      · intro _
        exact h3 (Or.inr (by rw [hl]; simp))
    · have hcc :
          chipCount { s1 with chips := setLanded s1.chips id, pending := s1.pending ++ [(id, sl)] } i
            = chipCount s1 i := by
        simp [chipCount, countPending_append, countPending_single, hii]
      have hlk : lookupChip (setLanded s1.chips id) i = lookupChip s1.chips i :=
        lookupChip_setLanded_ne _ _ _ (fun hx => hii hx.symm)
      refine ⟨by rw [hcc]; exact h1, ?_, ?_⟩
      · intro d' hd' hdl'
        rw [hcc]
        have hd2 : lookupChip (setLanded s1.chips id) i = some d' := hd'
        rw [hlk] at hd2
        exact h2 d' hd2 hdl'
      · intro hor
        apply h3
        rcases hor with hnz | hne
        · left; rwa [hcc] at hnz
        · right
          have hne2 : lookupChip (setLanded s1.chips id) i ≠ none := hne
          rwa [hlk] at hne2

theorem inv_timerFireStep {s : EngineState} (h : Inv s) : Inv (timerFireStep s) := by
  unfold timerFireStep
  rcases hp : s.pending with _ | ⟨⟨j, sl⟩, rest⟩
  · exact h
  · intro i
    obtain ⟨h1, h2, h3⟩ := h i
    have hcP : countPending i s.pending = (if j = i then 1 else 0) + countPending i rest := by
      rw [hp, countPending_cons]
    have hcc :
        chipCount { s with out := s.out ++ [Output.slotLanded j sl], chips := eraseChip s.chips j, worldChips := s.worldChips.filter (fun x => x != j), pending := rest } i
          = chipCount s i := by
      by_cases hji : j = i <;>
        simp [chipCount, countSlotLanded_append, countSlotLanded_single, hcP, hji] <;>
        omega
    refine ⟨by rw [hcc]; exact h1, ?_, ?_⟩
    · intro d hd hdl
      rw [hcc]
      have hd2 : lookupChip (eraseChip s.chips j) i = some d := hd
      by_cases hji : i = j
      · subst hji
        rw [lookupChip_erase_self] at hd2
        cases hd2
      · rw [lookupChip_erase_ne _ _ _ hji] at hd2
        exact h2 d hd2 hdl
    · intro hor
      apply h3
      rcases hor with hnz | hne
      · left; rwa [hcc] at hnz
      · right
        have hne2 : lookupChip (eraseChip s.chips j) i ≠ none := hne
        by_cases hji : i = j
        · subst hji
          rw [lookupChip_erase_self] at hne2
          exact absurd rfl hne2
        · rwa [lookupChip_erase_ne _ _ _ hji] at hne2

theorem inv_buildWorldStep {s : EngineState} (h : Inv s) : Inv (buildWorldStep s) :=
  fun i => h i

theorem inv_destroyStep {s : EngineState} (h : Inv s) : Inv (destroyStep s) := by
  intro i
  obtain ⟨h1, h2, h3⟩ := h i
  refine ⟨h1, ?_, ?_⟩
  · intro d hd
    have hd2 : (none : Option ChipData) = some d := hd
    simp at hd2
  · intro hor
    apply h3
    rcases hor with hnz | hne
    · exact Or.inl hnz
    · exact absurd rfl hne

theorem inv_step {s : EngineState} (h : Inv s) (e : Event) : Inv (step s e) := by
  cases e with
  | drop t => exact inv_dropChipStep h t
  | collision a b => exact inv_collisionPairStep h a b
  | timerFire => exact inv_timerFireStep h
  | rebuild => exact inv_buildWorldStep h
  | destroy => exact inv_destroyStep h

theorem inv_run (es : List Event) : ∀ s : EngineState, Inv s → Inv (run s es) := by
  induction es with
  | nil => exact fun s h => h
  | cons e es ih => exact fun s h => ih _ (inv_step h e)

end Plinko.PlinkoEngine

namespace Plinko.PlinkoEngine

/-- Claim C1: over any event trace from the freshly constructed engine, the
landing callback `onSlotLanded` is delivered at most once per chip, no matter
how many `collisionStart` events pair the chip with slot sensors: the first
sensor contact flips `hasLanded` from false to true and schedules the single
dispatch, and every later sensor contact for that chip is ignored. -/
theorem slotLanded_delivered_at_most_once (es : List Event) (id : ℕ) :
    countSlotLanded id (run init es).out ≤ 1 := by
  have h := (inv_run es init inv_init id).1
  unfold chipCount at h
  omega

/-- Claim C2, counterexample: after a chip has landed (`hasLanded = true`,
settle timer still pending, body still in the world), a collision event
pairing its body with a peg still delivers `onPegHit` for it - the peg branch
of the collision handler never consults `hasLanded`.  The trace is physically
well-formed (`wfB`). -/
theorem pegHit_after_landing_counterexample :
    lookupChip (run init [Event.drop none,
        Event.collision (BodyLabel.chip 0) (BodyLabel.slot 2)]).chips 0
      = some { targetSlot := none, hasLanded := true }
    ∧ wfB init [Event.drop none, Event.collision (BodyLabel.chip 0) (BodyLabel.slot 2),
        Event.collision BodyLabel.peg (BodyLabel.chip 0)] = true
    ∧ (run init [Event.drop none,
        Event.collision (BodyLabel.chip 0) (BodyLabel.slot 2)]).out = [Output.chipCreated 0]
    ∧ (run init [Event.drop none, Event.collision (BodyLabel.chip 0) (BodyLabel.slot 2),
        Event.collision BodyLabel.peg (BodyLabel.chip 0)]).out
      = [Output.chipCreated 0, Output.pegHit 0] := by
  decide

/-- Claim C2, amended: once a chip is marked landed, a collision event can
neither schedule another landing dispatch for it nor deliver a landing
callback, but a pair of its body with a peg still delivers `onPegHit`;
peg-hit delivery for the chip only stops once its body leaves the world (so
no collision event can name it any more). -/
theorem landed_chip_collision_behavior (s : EngineState) (a b : BodyLabel) (id : ℕ)
    (d : ChipData) (hd : lookupChip s.chips id = some d) (hl : d.hasLanded = true) :
    countPending id (collisionPairStep s a b).pending = countPending id s.pending
    ∧ countSlotLanded id (collisionPairStep s a b).out = countSlotLanded id s.out
    ∧ (a = BodyLabel.peg → b = BodyLabel.chip id →
        (collisionPairStep s a b).out = s.out ++ [Output.pegHit id]) := by
  have hchips : (pegHitPart s a b).chips = s.chips := by
    rcases pegHitPart_shape s a b with he | ⟨j, he⟩ <;> rw [he]
  have hpend : (pegHitPart s a b).pending = s.pending := by
    rcases pegHitPart_shape s a b with he | ⟨j, he⟩ <;> rw [he]
  have hout : countSlotLanded id (pegHitPart s a b).out = countSlotLanded id s.out := by
    rcases pegHitPart_shape s a b with he | ⟨j, he⟩
    · rw [he]
    · rw [he]
      simp [countSlotLanded_append, countSlotLanded_pegHit]
  have hstep : collisionPairStep s a b = slotPart (pegHitPart s a b) a b := rfl
  refine ⟨?_, ?_, ?_⟩
  · rw [hstep]
    rcases slotPart_shape (pegHitPart s a b) a b with he | ⟨id', sl', d', hc', hs', hl', hd', he⟩
    · rw [he, hpend]
    · rw [he]
      dsimp only
      rw [countPending_append, hpend, countPending_single]
      have hne : id' ≠ id := by
        intro heq
        subst heq
        rw [hchips, hd] at hl'
        injection hl' with hx
        rw [hx, hd'] at hl
        simp at hl
      simp [hne]
  · rw [hstep]
    rcases slotPart_shape (pegHitPart s a b) a b with he | ⟨id', sl', d', hc', hs', hl', hd', he⟩
    · rw [he]
      exact hout
    · rw [he]
      exact hout
  · rintro rfl rfl
    simp [collisionPairStep, pegHitPart, slotPart, isPeg, firstChip, firstSlot,
      chipIdOf, slotIndexOf]

/-- Witness for the amended claim C2 at the concrete landed chip reached by
dropping a chip and letting it contact slot sensor 2. -/
theorem landed_chip_collision_behavior_witness :
    lookupChip (run init [Event.drop none, Event.collision (BodyLabel.chip 0) (BodyLabel.slot 2)]).chips 0 = some { targetSlot := none, hasLanded := true }
    ∧ ({ targetSlot := none, hasLanded := true } : ChipData).hasLanded = true
    ∧ (countPending 0 (collisionPairStep (run init [Event.drop none, Event.collision (BodyLabel.chip 0) (BodyLabel.slot 2)]) BodyLabel.peg (BodyLabel.chip 0)).pending = countPending 0 (run init [Event.drop none, Event.collision (BodyLabel.chip 0) (BodyLabel.slot 2)]).pending
      ∧ countSlotLanded 0 (collisionPairStep (run init [Event.drop none, Event.collision (BodyLabel.chip 0) (BodyLabel.slot 2)]) BodyLabel.peg (BodyLabel.chip 0)).out = countSlotLanded 0 (run init [Event.drop none, Event.collision (BodyLabel.chip 0) (BodyLabel.slot 2)]).out
      ∧ (BodyLabel.peg = BodyLabel.peg → BodyLabel.chip 0 = BodyLabel.chip 0 →
          (collisionPairStep (run init [Event.drop none, Event.collision (BodyLabel.chip 0) (BodyLabel.slot 2)]) BodyLabel.peg (BodyLabel.chip 0)).out = (run init [Event.drop none, Event.collision (BodyLabel.chip 0) (BodyLabel.slot 2)]).out ++ [Output.pegHit 0])) :=
  ⟨by decide, by decide,
    landed_chip_collision_behavior _ BodyLabel.peg (BodyLabel.chip 0) 0
      { targetSlot := none, hasLanded := true } (by decide) (by decide)⟩

/-- Claim C3: the settle dispatch scheduled by a slot-sensor contact survives
`destroy()` - the `setTimeout` closure has no liveness check - so when the
timer fires after teardown, `onSlotLanded` is still delivered.  The run below
drops a chip, lands it (scheduling the 100 ms dispatch), destroys the engine,
and then the pending timer fires and emits the landing callback. -/
theorem pending_landing_fires_after_destroy :
    (run init [Event.drop none, Event.collision (BodyLabel.chip 0) (BodyLabel.slot 1),
        Event.destroy]).destroyed = true
    ∧ (run init [Event.drop none, Event.collision (BodyLabel.chip 0) (BodyLabel.slot 1),
        Event.destroy]).pending = [(0, 1)]
    ∧ wfB init [Event.drop none, Event.collision (BodyLabel.chip 0) (BodyLabel.slot 1),
        Event.destroy] = true
    ∧ (step (run init [Event.drop none, Event.collision (BodyLabel.chip 0) (BodyLabel.slot 1),
        Event.destroy]) Event.timerFire).out
      = (run init [Event.drop none, Event.collision (BodyLabel.chip 0) (BodyLabel.slot 1),
          Event.destroy]).out ++ [Output.slotLanded 0 1] := by
  decide

end Plinko.PlinkoEngine

namespace Plinko.PlinkoEngine

/-- A chip whose body has left the world and that has no scheduled dispatch
stays in the registry unchanged and never receives a landing callback, along
any physically well-formed continuation that does not destroy the engine:
collisions can only name bodies present in the world, fresh drops never reuse
its id, and fired timers only concern other chips. -/
theorem ghost_chip_persists (id : ℕ) (d : ChipData) :
    ∀ (es : List Event) (t : EngineState),
      wfB t es = true → noDestroy es = true →
      lookupChip t.chips id = some d →
      countPending id t.pending = 0 →
      id ∉ t.worldChips →
      id < t.nextId →
      lookupChip (run t es).chips id = some d
      ∧ countSlotLanded id (run t es).out = countSlotLanded id t.out := by
  intro es
  induction es with
  | nil =>
    intro t _ _ hl _ _ _
    exact ⟨hl, rfl⟩
  | cons e es ih =>
    intro t hwf hnd hl hp hw hn
    have hwf1 : eventOk t e = true ∧ wfB (step t e) es = true := by
      simpa [wfB, Bool.and_eq_true] using hwf
    have hnd1 : notDestroy e = true ∧ noDestroy es = true := by
      simpa [noDestroy, Bool.and_eq_true] using hnd
    have hrun : run t (e :: es) = run (step t e) es := rfl
    rw [hrun]
    cases e with
    | drop tS =>
      have c1 : lookupChip (step t (Event.drop tS)).chips id = some d :=
        lookupChip_append_some _ hl
      have c3 : id ∉ (step t (Event.drop tS)).worldChips := by
        intro hmem
        rcases List.mem_append.mp hmem with hmm | hmm
        · exact hw hmm
        · simp at hmm
          omega
      have c5 : countSlotLanded id (step t (Event.drop tS)).out
          = countSlotLanded id t.out := by
        simp [step, dropChipStep, countSlotLanded_append, countSlotLanded_chipCreated]
      obtain ⟨hA, hB⟩ := ih (step t (Event.drop tS)) hwf1.2 hnd1.2 c1 hp c3 (by
        show id < t.nextId + 1
        omega)
      exact ⟨hA, by rw [hB, c5]⟩
    | collision a b =>
      have hok : t.destroyed = false ∧ labelLive t a = true ∧ labelLive t b = true := by
        have := hwf1.1
        simp only [eventOk, Bool.and_eq_true, Bool.not_eq_true'] at this
        exact ⟨this.1.1, this.1.2, this.2⟩
      have hchips : (pegHitPart t a b).chips = t.chips := by
        rcases pegHitPart_shape t a b with he | ⟨j, he⟩ <;> rw [he]
      have hpend : (pegHitPart t a b).pending = t.pending := by
        rcases pegHitPart_shape t a b with he | ⟨j, he⟩ <;> rw [he]
      have hworld : (pegHitPart t a b).worldChips = t.worldChips := by
        rcases pegHitPart_shape t a b with he | ⟨j, he⟩ <;> rw [he]
      have hnext : (pegHitPart t a b).nextId = t.nextId := by
        rcases pegHitPart_shape t a b with he | ⟨j, he⟩ <;> rw [he]
      have hout : countSlotLanded id (pegHitPart t a b).out = countSlotLanded id t.out := by
        rcases pegHitPart_shape t a b with he | ⟨j, he⟩
        · rw [he]
        · rw [he]
          simp [countSlotLanded_append, countSlotLanded_pegHit]
      have hstep : step t (Event.collision a b) = slotPart (pegHitPart t a b) a b := rfl
      rcases slotPart_shape (pegHitPart t a b) a b with he | ⟨id', sl', d', hc', hs', hl', hd', he⟩
      · have c1 : lookupChip (step t (Event.collision a b)).chips id = some d := by
          rw [hstep, he, hchips]
          exact hl
        have c2 : countPending id (step t (Event.collision a b)).pending = 0 := by
          rw [hstep, he, hpend]
          exact hp
        have c3 : id ∉ (step t (Event.collision a b)).worldChips := by
          rw [hstep, he, hworld]
          exact hw
        have c4 : id < (step t (Event.collision a b)).nextId := by
          rw [hstep, he, hnext]
          exact hn
        obtain ⟨hA, hB⟩ := ih _ hwf1.2 hnd1.2 c1 c2 c3 c4
        refine ⟨hA, ?_⟩
        rw [hB]
        rw [hstep, he]
        exact hout
      · have hid' : id' ≠ id := by
          intro heq
          subst heq
          rcases firstChip_eq_some hc' with ha | hb
          · subst ha
            have := hok.2.1
            simp [labelLive, decide_eq_true_eq] at this
            exact hw this
          · subst hb
            have := hok.2.2
            simp [labelLive, decide_eq_true_eq] at this
            exact hw this
        have c1 : lookupChip (step t (Event.collision a b)).chips id = some d := by
          rw [hstep, he]
          show lookupChip (setLanded (pegHitPart t a b).chips id') id = some d
          rw [lookupChip_setLanded_ne _ _ _ (fun hx => hid' hx.symm), hchips]
          exact hl
        have c2 : countPending id (step t (Event.collision a b)).pending = 0 := by
          rw [hstep, he]
          show countPending id ((pegHitPart t a b).pending ++ [(id', sl')]) = 0
          rw [countPending_append, hpend, countPending_single]
          simp [hid', hp]
        have c3 : id ∉ (step t (Event.collision a b)).worldChips := by
          rw [hstep, he]
          show id ∉ (pegHitPart t a b).worldChips
          rw [hworld]
          exact hw
        have c4 : id < (step t (Event.collision a b)).nextId := by
          rw [hstep, he]
          show id < (pegHitPart t a b).nextId
          rw [hnext]
          exact hn
        obtain ⟨hA, hB⟩ := ih _ hwf1.2 hnd1.2 c1 c2 c3 c4
        refine ⟨hA, ?_⟩
        rw [hB]
        rw [hstep, he]
        exact hout
    | timerFire =>
      rcases hpq : t.pending with _ | ⟨⟨j, sl⟩, rest⟩
      · have hst : step t Event.timerFire = t := by
          simp [step, timerFireStep, hpq]
        rw [hst]
        exact ih t (hst ▸ hwf1.2) hnd1.2 hl hp hw hn
      · have hp' := hp
        rw [hpq, countPending_cons] at hp'
        have hj : j ≠ id := by
          intro heq
          simp [heq] at hp'
        have hrest : countPending id rest = 0 := by
          simpa [hj] using hp'
        have hst : step t Event.timerFire
            = { t with out := t.out ++ [Output.slotLanded j sl], chips := eraseChip t.chips j, worldChips := t.worldChips.filter (fun x => x != j), pending := rest } := by
          simp [step, timerFireStep, hpq]
        have c1 : lookupChip (step t Event.timerFire).chips id = some d := by
          rw [hst]
          show lookupChip (eraseChip t.chips j) id = some d
          rw [lookupChip_erase_ne _ _ _ (fun hx => hj hx.symm)]
          exact hl
        have c3 : id ∉ (step t Event.timerFire).worldChips := by
          rw [hst]
          show id ∉ t.worldChips.filter (fun x => x != j)
          intro hmem
          exact hw (List.mem_of_mem_filter hmem)
        obtain ⟨hA, hB⟩ := ih _ hwf1.2 hnd1.2 c1 (by rw [hst]; exact hrest) c3 (by rw [hst]; exact hn)
        refine ⟨hA, ?_⟩
        rw [hB, hst]
        show countSlotLanded id (t.out ++ [Output.slotLanded j sl]) = countSlotLanded id t.out
        rw [countSlotLanded_append, countSlotLanded_single]
        simp [hj]
    | rebuild =>
      have c3 : id ∉ (step t Event.rebuild).worldChips := by
        simp [step, buildWorldStep]
      exact ih _ hwf1.2 hnd1.2 hl hp c3 hn
    | destroy =>
      simp [notDestroy] at hnd1

/-- Claim C10: `resize()`/`setRows()` rebuild the world, clearing every body
including in-flight chips, but leave the chip registry untouched:
`getActiveChipCount` is unchanged by the rebuild, and a chip that had not
landed keeps its registry entry forever while its landing callback never
fires, along any well-formed non-destroying continuation (its body no longer
exists, so no sensor contact can occur). -/
theorem rebuild_preserves_registry_discards_bodies
    (es₁ : List Event) (id : ℕ) (d : ChipData) (es₂ : List Event)
    (hd : lookupChip (run init es₁).chips id = some d)
    (hlanded : d.hasLanded = false)
    (hwf : wfB (step (run init es₁) Event.rebuild) es₂ = true)
    (hnd : noDestroy es₂ = true) :
    getActiveChipCount (step (run init es₁) Event.rebuild)
      = getActiveChipCount (run init es₁)
    ∧ (step (run init es₁) Event.rebuild).worldChips = []
    ∧ lookupChip (run (step (run init es₁) Event.rebuild) es₂).chips id = some d
    ∧ countSlotLanded id (run (step (run init es₁) Event.rebuild) es₂).out = 0 := by
  obtain ⟨h1, h2, h3⟩ := inv_run es₁ init inv_init id
  have h0 : chipCount (run init es₁) id = 0 := h2 d hd hlanded
  have hzero : countSlotLanded id (run init es₁).out = 0
      ∧ countPending id (run init es₁).pending = 0 := by
    unfold chipCount at h0
    omega
  have hlt : id < (run init es₁).nextId := h3 (Or.inr (by rw [hd]; simp))
  obtain ⟨hA, hB⟩ := ghost_chip_persists id d es₂ (step (run init es₁) Event.rebuild)
    hwf hnd hd hzero.2 (by simp [step, buildWorldStep]) hlt
  refine ⟨rfl, rfl, hA, ?_⟩
  rw [hB]
  exact hzero.1

/-- Witness for claim C10: drop one chip, rebuild, then continue with a fresh
drop and a timer tick; the original chip rides along untouched. -/
theorem rebuild_preserves_registry_discards_bodies_witness :
    lookupChip (run init [Event.drop none]).chips 0 = some { targetSlot := none, hasLanded := false }
    ∧ ({ targetSlot := none, hasLanded := false } : ChipData).hasLanded = false
    ∧ wfB (step (run init [Event.drop none]) Event.rebuild) [Event.drop (some 3), Event.timerFire] = true
    ∧ noDestroy [Event.drop (some 3), Event.timerFire] = true
    ∧ (getActiveChipCount (step (run init [Event.drop none]) Event.rebuild) = getActiveChipCount (run init [Event.drop none])
      ∧ (step (run init [Event.drop none]) Event.rebuild).worldChips = []
      ∧ lookupChip (run (step (run init [Event.drop none]) Event.rebuild) [Event.drop (some 3), Event.timerFire]).chips 0 = some { targetSlot := none, hasLanded := false }
      ∧ countSlotLanded 0 (run (step (run init [Event.drop none]) Event.rebuild) [Event.drop (some 3), Event.timerFire]).out = 0) :=
  ⟨by decide, by decide, by decide, by decide,
    rebuild_preserves_registry_discards_bodies [Event.drop none] 0
      { targetSlot := none, hasLanded := false } [Event.drop (some 3), Event.timerFire]
      (by decide) (by decide) (by decide) (by decide)⟩

end Plinko.PlinkoEngine

namespace Plinko.PlinkoEngine

/-! ### The deterministic steering task (claim C7) -/

theorem runNudges_stopped (env : NudgeEnv) :
    ∀ (os : List NudgeObs) (st : ℕ × Bool), st.2 = false →
      countForces (runNudges env st os).2 = 0 ∧ (runNudges env st os).1 = st := by
  intro os
  induction os with
  | nil => exact fun st _ => ⟨rfl, rfl⟩
  | cons o os ih =>
    intro st h
    have ht : nudgeTick env st o = (st, none) := by
      simp [nudgeTick, h]
    simp only [runNudges, ht]
    obtain ⟨hA, hB⟩ := ih st h
    exact ⟨by simpa [countForces] using hA, hB⟩

theorem countForces_cons_le (x : Option ℚ) (l : List (Option ℚ)) :
    countForces (x :: l) ≤ 1 + countForces l := by
  cases x <;> simp [countForces] <;> omega

theorem runNudges_count_le (env : NudgeEnv) :
    ∀ (os : List NudgeObs) (st : ℕ × Bool),
      countForces (runNudges env st os).2 ≤ maxNudges env - st.1 := by
  intro os
  induction os with
  | nil =>
    intro st
    simp [runNudges, countForces]
  | cons o os ih =>
    intro st
    by_cases hstop : st.2 = false
    · have ht : nudgeTick env st o = (st, none) := by simp [nudgeTick, hstop]
      simp only [runNudges, ht]
      have h0 := (runNudges_stopped env os st hstop).1
      have h1 : countForces (none :: (runNudges env st os).2)
          = countForces (runNudges env st os).2 := by
        simp [countForces]
      rw [h1, h0]
      exact Nat.zero_le _
    · have hst : st.2 = true := by
        revert hstop
        cases st.2 <;> simp
      by_cases hlim : o.destroyed = true ∨ maxNudges env ≤ st.1
      · have ht : nudgeTick env st o = ((st.1, false), none) := by
          simp [nudgeTick, hst, hlim]
        simp only [runNudges, ht]
        have h0 := (runNudges_stopped env os (st.1, false) rfl).1
        have h1 : countForces (none :: (runNudges env (st.1, false) os).2)
            = countForces (runNudges env (st.1, false) os).2 := by
          simp [countForces]
        rw [h1, h0]
        exact Nat.zero_le _
      · rcases hcd : o.chipData with _ | dd
        · have ht : nudgeTick env st o = ((st.1, false), none) := by
            simp [nudgeTick, hst, hlim, hcd]
          simp only [runNudges, ht]
          have h0 := (runNudges_stopped env os (st.1, false) rfl).1
          have h1 : countForces (none :: (runNudges env (st.1, false) os).2)
              = countForces (runNudges env (st.1, false) os).2 := by
            simp [countForces]
          rw [h1, h0]
          exact Nat.zero_le _
        · by_cases hdl : dd.hasLanded = true
          · have ht : nudgeTick env st o = ((st.1, false), none) := by
              simp [nudgeTick, hst, hlim, hcd, hdl]
            simp only [runNudges, ht]
            have h0 := (runNudges_stopped env os (st.1, false) rfl).1
            have h1 : countForces (none :: (runNudges env (st.1, false) os).2)
                = countForces (runNudges env (st.1, false) os).2 := by
              simp [countForces]
            rw [h1, h0]
            exact Nat.zero_le _
          · have hlt : st.1 < maxNudges env := by
              push_neg at hlim
              omega
            have ht1 : (nudgeTick env st o).1 = (st.1 + 1, true) := by
              simp [nudgeTick, hst, hlim, hcd, hdl]
            simp only [runNudges]
            rw [ht1]
            have hrest := ih (st.1 + 1, true)
            have hcons := countForces_cons_le (nudgeTick env st o).2
              (runNudges env (st.1 + 1, true) os).2
            omega

/-- Claim C7: the deterministic steering task runs at most
`floor(rowCount / 2)` ticks that can apply a force; a force is applied only
while the chip sits strictly inside the 0.3 to 0.85 vertical band and its
horizontal offset from the target slot center exceeds 0.3 slot widths, and
the force is `offset * 0.00002 * (random + 0.5)`, proportional to the
offset; and the tick uninstalls the interval as soon as the engine is
destroyed, the chip is gone, or the chip has landed, applying nothing. -/
theorem deterministic_nudges_bounded_and_guarded :
    (∀ (env : NudgeEnv) (os : List NudgeObs),
        countForces (runNudges env (0, true) os).2 ≤ env.rows / 2)
    ∧ (∀ (env : NudgeEnv) (st : ℕ × Bool) (o : NudgeObs) (f : ℚ),
        (nudgeTick env st o).2 = some f →
          o.destroyed = false
          ∧ ∃ dd, o.chipData = some dd ∧ dd.hasLanded = false
            ∧ 3 / 10 < o.posY / (env.height - env.slotHeight)
            ∧ o.posY / (env.height - env.slotHeight) < 85 / 100
            ∧ slotWidth env * (3 / 10) < |targetX env - o.posX|
            ∧ f = (targetX env - o.posX) * (2 / 100000) * (o.rand + 1 / 2))
    ∧ (∀ (env : NudgeEnv) (st : ℕ × Bool) (o : NudgeObs),
        (o.destroyed = true ∨ o.chipData = none
          ∨ (∃ dd, o.chipData = some dd ∧ dd.hasLanded = true)) →
        (nudgeTick env st o).1.2 = false ∧ (nudgeTick env st o).2 = none) := by
  refine ⟨?_, ?_, ?_⟩
  · intro env os
    have := runNudges_count_le env os (0, true)
    simpa [maxNudges] using this
  · intro env st o f h
    by_cases hstop : st.2 = false
    · simp [nudgeTick, hstop] at h
    · have hst : st.2 = true := by
        revert hstop
        cases st.2 <;> simp
      by_cases hlim : o.destroyed = true ∨ maxNudges env ≤ st.1
      · simp [nudgeTick, hst, hlim] at h
      · rcases hcd : o.chipData with _ | dd
        · simp [nudgeTick, hst, hlim, hcd] at h
        · by_cases hdl : dd.hasLanded = true
          · simp [nudgeTick, hst, hlim, hcd, hdl] at h
          · have hdl' : dd.hasLanded = false := by
              revert hdl
              cases dd.hasLanded <;> simp
            have hdes : o.destroyed = false := by
              push_neg at hlim
              revert hlim
              cases o.destroyed <;> simp
            simp only [nudgeTick, hst, hlim, hcd, hdl] at h
            by_cases hband : 3 / 10 < o.posY / (env.height - env.slotHeight)
                ∧ o.posY / (env.height - env.slotHeight) < 85 / 100
            · by_cases hoff : slotWidth env * (3 / 10) < |targetX env - o.posX|
              · simp [hband, hoff, hdl'] at h
                refine ⟨hdes, dd, rfl, hdl', hband.1, hband.2, hoff, ?_⟩
                rw [← h]
                norm_num
              · simp [hband, hoff, hdl'] at h
            · simp [hband, hdl'] at h
  · intro env st o hcase
    by_cases hstop : st.2 = false
    · refine ⟨?_, ?_⟩ <;> simp [nudgeTick, hstop]
    · have hst : st.2 = true := by
        revert hstop
        cases st.2 <;> simp
      rcases hcase with hdes | hcd | ⟨dd, hcd, hdl⟩
      · refine ⟨?_, ?_⟩ <;> simp [nudgeTick, hst, hdes]
      · by_cases hlim : o.destroyed = true ∨ maxNudges env ≤ st.1 <;>
          refine ⟨?_, ?_⟩ <;> simp [nudgeTick, hst, hlim, hcd]
      · by_cases hlim : o.destroyed = true ∨ maxNudges env ≤ st.1 <;>
          refine ⟨?_, ?_⟩ <;> simp [nudgeTick, hst, hlim, hcd, hdl]

/-- Witness for claim C7: a concrete tick on an 8-row 100 by 100 board with
target slot 0; the chip at (50, 50) is in the band, offset 112/3 from the
target center 38/3, and receives the force -7/9375. -/
theorem deterministic_nudges_bounded_and_guarded_witness :
    (⟨false, some ⟨some 0, false⟩, 50, 50, 1 / 2⟩ : NudgeObs).destroyed = false
    ∧ ∃ dd, (⟨false, some ⟨some 0, false⟩, 50, 50, 1 / 2⟩ : NudgeObs).chipData = some dd
      ∧ dd.hasLanded = false
      ∧ 3 / 10 < (⟨false, some ⟨some 0, false⟩, 50, 50, 1 / 2⟩ : NudgeObs).posY
          / ((⟨8, 100, 8, 100, 12, 0⟩ : NudgeEnv).height - (⟨8, 100, 8, 100, 12, 0⟩ : NudgeEnv).slotHeight)
      ∧ (⟨false, some ⟨some 0, false⟩, 50, 50, 1 / 2⟩ : NudgeObs).posY
          / ((⟨8, 100, 8, 100, 12, 0⟩ : NudgeEnv).height - (⟨8, 100, 8, 100, 12, 0⟩ : NudgeEnv).slotHeight) < 85 / 100
      ∧ slotWidth ⟨8, 100, 8, 100, 12, 0⟩ * (3 / 10)
          < |targetX ⟨8, 100, 8, 100, 12, 0⟩ - (⟨false, some ⟨some 0, false⟩, 50, 50, 1 / 2⟩ : NudgeObs).posX|
      ∧ (-7 / 9375 : ℚ) = (targetX ⟨8, 100, 8, 100, 12, 0⟩ - (⟨false, some ⟨some 0, false⟩, 50, 50, 1 / 2⟩ : NudgeObs).posX)
          * (2 / 100000) * ((⟨false, some ⟨some 0, false⟩, 50, 50, 1 / 2⟩ : NudgeObs).rand + 1 / 2) :=
  deterministic_nudges_bounded_and_guarded.2.1 ⟨8, 100, 8, 100, 12, 0⟩ (0, true)
    ⟨false, some ⟨some 0, false⟩, 50, 50, 1 / 2⟩ (-7 / 9375)
    (by norm_num [nudgeTick, slotWidth, targetX, maxNudges, abs_of_nonneg, abs_of_nonpos])

/-! ### Stuck-chip recovery (claim C8) -/

/-- Claim C8: whenever the recovery pass intervenes on a chip (it returns a
velocity for `Body.setVelocity`), the chip had not landed, its displacement
since the last check was below 1.5 pixels (squared form), the stuck timer had
exceeded 500 ms, and its speed was below 0.2; the new vertical velocity is
the old one plus `0.5 + random * 0.5`, a boost in [0.5, 1], and the speed
bound forces the result strictly positive (downward). -/
theorem unstick_velocity_downward
    (now : ℚ) (data : StuckChip) (posX posY vx vy rc rs r2 r3 : ℚ)
    (hr3a : 0 ≤ r3) (hr3b : r3 < 1)
    (d' : StuckChip) (force vel : ℚ × ℚ)
    (h : checkAndUnstickChip now data posX posY vx vy rc rs r2 r3 = (d', some force, some vel)) :
    data.hasLanded = false
    ∧ (∃ last, data.lastPosition = some last
        ∧ (posX - last.1) ^ 2 + (posY - last.2) ^ 2 < 9 / 4)
    ∧ (∃ t0, data.stuckCheckTime = some t0 ∧ 500 < now - t0)
    ∧ vx ^ 2 + vy ^ 2 < 1 / 25
    ∧ vel.2 = vy + 1 / 2 + r3 * (1 / 2)
    ∧ 1 / 2 ≤ 1 / 2 + r3 * (1 / 2) ∧ 1 / 2 + r3 * (1 / 2) ≤ 1
    ∧ 0 < vel.2 := by
  unfold checkAndUnstickChip at h
  by_cases hld : data.hasLanded = true
  · simp [hld] at h
  · have hld' : data.hasLanded = false := by
      revert hld
      cases data.hasLanded <;> simp
    rw [if_neg hld] at h
    rcases hlp : data.lastPosition with _ | last <;> rw [hlp] at h
    · simp at h
    · dsimp only at h
      by_cases hdist : (posX - last.1) ^ 2 + (posY - last.2) ^ 2 < 9 / 4
      · rw [if_pos hdist] at h
        rcases hst : data.stuckCheckTime with _ | t0 <;> rw [hst] at h
        · simp at h
        · dsimp only at h
          by_cases htime : 500 < now - t0
          · rw [if_pos htime] at h
            by_cases hspeed : vx ^ 2 + vy ^ 2 < 1 / 25
            · rw [if_pos hspeed] at h
              have hv := congrArg (fun q => q.2.2) h
              simp only [Option.some_inj] at hv
              refine ⟨hld', ⟨last, rfl, hdist⟩, ⟨t0, rfl, htime⟩, hspeed, ?_, ?_, ?_, ?_⟩
              · rw [← hv]
              · nlinarith
              · nlinarith
              · rw [← hv]
                show 0 < vy + 1 / 2 + r3 * (1 / 2)
                nlinarith [sq_nonneg vx, sq_nonneg (vy + 1 / 5)]
            · rw [if_neg hspeed] at h
              simp at h
          · rw [if_neg htime] at h
            simp at h
      · rw [if_neg hdist] at h
        simp at h

/-- Witness for claim C8: a chip at rest, pinned for 501 ms one pixel from
its recorded position, receives the velocity (0, 1/2): vertical component
strictly positive. -/
theorem unstick_velocity_downward_witness :
    (0 : ℚ) ≤ 0 ∧ (0 : ℚ) < 1
    ∧ ((⟨false, some (0, 0), some 0⟩ : StuckChip).hasLanded = false
      ∧ (∃ last, (⟨false, some (0, 0), some 0⟩ : StuckChip).lastPosition = some last
          ∧ ((1 : ℚ) - last.1) ^ 2 + ((0 : ℚ) - last.2) ^ 2 < 9 / 4)
      ∧ (∃ t0, (⟨false, some (0, 0), some 0⟩ : StuckChip).stuckCheckTime = some t0
          ∧ 500 < (501 : ℚ) - t0)
      ∧ (0 : ℚ) ^ 2 + (0 : ℚ) ^ 2 < 1 / 25
      ∧ ((0 : ℚ), (1 / 2 : ℚ)).2 = 0 + 1 / 2 + 0 * (1 / 2)
      ∧ (1 / 2 : ℚ) ≤ 1 / 2 + 0 * (1 / 2) ∧ (1 / 2 : ℚ) + 0 * (1 / 2) ≤ 1
      ∧ 0 < ((0 : ℚ), (1 / 2 : ℚ)).2) :=
  ⟨by norm_num, by norm_num,
    unstick_velocity_downward 501 ⟨false, some (0, 0), some 0⟩ 1 0 0 0 1 0 (1 / 2) 0
      (by norm_num) (by norm_num) ⟨false, some (1, 0), some 501⟩ (1 / 1000, 1 / 1250) (0, 1 / 2)
      (by norm_num [checkAndUnstickChip])⟩

end Plinko.PlinkoEngine
